import Mathlib

/-!
# Verification of the FHELaunchPrice repository

A shallow embedding of the two components the specification is about:

* the Solidity contract `packages/hardhat/contracts/FHELaunchPrice.sol`
  (address-keyed mappings for encrypted guesses, submission flags and
  timestamps, plus the FHE permission calls), and
* the client orchestrator `packages/nextjs/hooks/useLaunchPrice.ts`
  (the `submitValue` flow and the derived `hasSubmitted` / `valueDecrypted`
  values).

Addresses and ciphertext handles are modelled as natural numbers; the
external FHE library is modelled as an environment providing the fallible
`fromExternal` verifier and the plaintext denotation of a handle.
Reverting calls return `none` / `.error`, and the transaction-level step
function leaves the state unchanged on revert, reflecting EVM atomicity.
-/

namespace FHELaunchPrice

/-- An EVM address. -/
abbrev Address := Nat

/-- A ciphertext handle (the on-chain representation of an `euint32`).
`0` is the default value of an uninitialised mapping slot. -/
abbrev Euint32 := Nat

/-- The environment supplied by the external FHE library:
`fromExternal` verifies a zero-knowledge proof against an external
ciphertext and, on success, yields the internal handle; `valueOf` is the
plaintext a permitted party obtains by decrypting a handle. -/
structure FHEEnv where
  fromExternal : Nat → List Nat → Option Euint32
  valueOf : Euint32 → Nat

/-- The contract's storage together with the FHE access-control state the
contract manipulates through `FHE.allow` / `FHE.allowThis`. -/
structure ContractState where
  encryptedGuesses : Address → Euint32
  hasSubmittedMap : Address → Bool
  lastGuessTime : Address → Nat
  acl : Euint32 → Address → Bool
  aclThis : Euint32 → Bool

/-- The state of a freshly deployed contract: every mapping at its
default value, no permission granted. -/
def initialState : ContractState where
  encryptedGuesses := fun _ => 0
  hasSubmittedMap := fun _ => false
  lastGuessTime := fun _ => 0
  acl := fun _ _ => false
  aclThis := fun _ => false

/-- `FHE.allow(handle, who)`: extend the permission set of `handle` by
`who`; nothing else changes. -/
def fheAllow (s : ContractState) (h : Euint32) (who : Address) : ContractState :=
  { s with acl := fun h2 a => if h2 = h ∧ a = who then true else s.acl h2 a }

/-- `FHE.allowThis(handle)`: grant the contract itself permission on
`handle`. -/
def fheAllowThis (s : ContractState) (h : Euint32) : ContractState :=
  { s with aclThis := fun h2 => if h2 = h then true else s.aclThis h2 }

/-- The single event the contract emits. -/
inductive Event where
  | priceGuessSubmitted (participant : Address) (timestamp : Nat)
deriving DecidableEq, Repr

/-- `submitPriceGuess(encryptedGuess, zkProof)` by `sender` at block time
`ts`: `FHE.fromExternal` either reverts (`none`) or yields the internal
handle, which is stored; the submission flag and timestamp are written,
permission is granted to the sender and the contract, and the event is
emitted. -/
def submitPriceGuess (env : FHEEnv) (sender : Address) (ts : Nat)
    (encryptedGuess : Nat) (zkProof : List Nat) (s : ContractState) :
    Option (ContractState × List Event) :=
  match env.fromExternal encryptedGuess zkProof with
  | none => none
  | some internalEnc =>
    let s1 : ContractState :=
      { s with
        encryptedGuesses := fun a => if a = sender then internalEnc else s.encryptedGuesses a
        hasSubmittedMap := fun a => if a = sender then true else s.hasSubmittedMap a
        lastGuessTime := fun a => if a = sender then ts else s.lastGuessTime a }
    let s2 := fheAllow s1 (s1.encryptedGuesses sender) sender
    let s3 := fheAllowThis s2 (s2.encryptedGuesses sender)
    some (s3, [Event.priceGuessSubmitted sender ts])

/-- View `hasSubmitted(user)`. -/
def hasSubmitted (s : ContractState) (user : Address) : Bool :=
  s.hasSubmittedMap user

/-- View `encryptedGuessOf(user)`. -/
def encryptedGuessOf (s : ContractState) (user : Address) : Euint32 :=
  s.encryptedGuesses user

/-- View `lastGuessTimestamp(user)`. -/
def lastGuessTimestamp (s : ContractState) (user : Address) : Nat :=
  s.lastGuessTime user

/-- `allowDecryption(grantee)` by `sender`: requires a prior submission,
otherwise reverts with the reason string; on success extends the
permission set of the sender's ciphertext by `grantee`. -/
def allowDecryption (sender grantee : Address) (s : ContractState) :
    Except String ContractState :=
  if s.hasSubmittedMap sender then
    .ok (fheAllow s (s.encryptedGuesses sender) grantee)
  else
    .error "No guess submitted"

/-- The contract's external state-mutating operations, as transactions. -/
inductive Op where
  | submit (sender : Address) (ts : Nat) (encryptedGuess : Nat) (zkProof : List Nat)
  | allow (sender grantee : Address)

/-- Transaction-level semantics: a reverting call leaves the state
unchanged (EVM atomicity). -/
def step (env : FHEEnv) (op : Op) (s : ContractState) : ContractState :=
  match op with
  | .submit sender ts eg proof =>
    match submitPriceGuess env sender ts eg proof s with
    | none => s
    | some (s2, _) => s2
  | .allow sender grantee =>
    match allowDecryption sender grantee s with
    | .error _ => s
    | .ok s2 => s2

/-- Reachability from the freshly deployed contract. -/
inductive Reachable (env : FHEEnv) : ContractState → Prop where
  | init : Reachable env initialState
  | next {s : ContractState} (op : Op) : Reachable env s → Reachable env (step env op s)

end FHELaunchPrice

namespace Client

/-- `ethers.ZeroHash`: the 32-byte all-zero hash as a hex string. -/
def zeroHash : String :=
  "0x0000000000000000000000000000000000000000000000000000000000000000"

/-- JavaScript truthiness of the fetched handle (`!encryptedHandle` is
true for `undefined` and for the empty string). -/
def jsTruthy : Option String → Bool
  | none => false
  | some s => s ≠ ""

/-- Modelled from the spec: the "all-zero/default sentinel handle", in
either of its textual encodings (`ethers.ZeroHash` and `"0x0"`). Used
only on the specification side of the refinement statements. -/
def isSentinelHandle (s : String) : Bool :=
  s = zeroHash || s = "0x0"

/-- The client-side derived `hasSubmitted` of `useLaunchPrice`:
`false` when no handle is fetched, otherwise the handle must differ from
both `ethers.ZeroHash` and `"0x0"`. -/
def hasSubmittedClient (encryptedHandle : Option String) : Bool :=
  match encryptedHandle with
  | none => false
  | some h =>
    if h = "" then false
    else decide (h ≠ zeroHash) && decide (h ≠ "0x0")

/-- The client-side derived `valueDecrypted` of `useLaunchPrice`:
`false` when no handle or no results cache is present, otherwise the
cache is looked up at the handle and the entry must exist and be a
nonzero number. -/
def valueDecrypted (encryptedHandle : Option String)
    (results : Option (String → Option Nat)) : Bool :=
  match encryptedHandle, results with
  | some h, some res =>
    if h = "" then false
    else
      match res h with
      | none => false
      | some v => decide (v ≠ 0)
  | _, _ => false

/-- The observable UI state the `submitValue` flow mutates. -/
structure ClientState where
  busy : Bool
  status : String
deriving DecidableEq, Repr

/-- The outcome of the asynchronous steps inside `submitValue`: the
encryption call may fail, the write signer may be missing, the
transaction send may be rejected, the confirmation wait may fail, or
everything succeeds. -/
inductive SubmitOutcome where
  | encryptFail
  | signerMissing
  | txRejected (msg : String)
  | confirmFail (msg : String)
  | success
deriving DecidableEq, Repr

/-- On-chain interactions performed by `submitValue`. -/
inductive ChainAction where
  | sendTx (amount : Nat)
  | refetch
deriving DecidableEq, Repr

/-- `accounts?.[0]` is truthy: the account list is present, nonempty,
and its first entry is a nonempty string. -/
def firstAccountPresent (accounts : Option (List String)) : Bool :=
  match accounts with
  | none => false
  | some l =>
    match l.head? with
    | none => false
    | some a => a ≠ ""

/-- The `submitValue(label, amount)` callback of `useLaunchPrice`.
The guard returns immediately when busy, without a connected account, or
without deployed contract info. Otherwise the `try`/`catch`/`finally`
block runs: every thrown error is converted to a
`"Submission error: ..."` status, and `finally` clears the busy flag.
The returned list records the on-chain interactions that happened
(transaction broadcast, read-after-write refetch). -/
def submitValue (st : ClientState) (accounts : Option (List String))
    (hasContract : Bool) (label : String) (amount : Nat)
    (outcome : SubmitOutcome) : ClientState × List ChainAction :=
  if st.busy || !firstAccountPresent accounts || !hasContract then
    (st, [])
  else
    match outcome with
    | .encryptFail =>
      ({ busy := false, status := "Submission error: " ++ "Encryption failed" }, [])
    | .signerMissing =>
      ({ busy := false, status := "Submission error: " ++ "Contract signer missing" }, [])
    | .txRejected m =>
      ({ busy := false, status := "Submission error: " ++ m }, [])
    | .confirmFail m =>
      ({ busy := false, status := "Submission error: " ++ m }, [ChainAction.sendTx amount])
    | .success =>
      ({ busy := false, status := "Value submitted for " ++ label },
       [ChainAction.sendTx amount, ChainAction.refetch])

end Client

namespace FHELaunchPrice

/-- A concrete FHE environment used to instantiate the hypotheses of the
contract theorems: a proof is valid exactly when it is `[7]`, in which
case the external ciphertext `e` verifies to the internal handle
`e + 1`, whose plaintext is `e`. -/
def env0 : FHEEnv where
  fromExternal := fun e p => if p = [7] then some (e + 1) else none
  valueOf := fun h => h - 1

/-- C1: a successful `submitPriceGuess` stores the verified handle in the
caller's record, sets the caller's submission flag, records the block
time, grants decrypt permission on the stored handle to the caller and
to the contract itself, and emits exactly one `PriceGuessSubmitted`
event carrying the caller's address and that same timestamp. -/
theorem submitPriceGuess_success_spec (env : FHEEnv) (sender : Address)
    (ts : Nat) (eg : Nat) (proof : List Nat) (s : ContractState) (h : Euint32)
    (hv : env.fromExternal eg proof = some h) :
    ∃ s2, submitPriceGuess env sender ts eg proof s
        = some (s2, [Event.priceGuessSubmitted sender ts])
      ∧ s2.encryptedGuesses sender = h
      ∧ s2.hasSubmittedMap sender = true
      ∧ s2.lastGuessTime sender = ts
      ∧ s2.acl h sender = true
      ∧ s2.aclThis h = true := by
  simp only [submitPriceGuess, hv]
  refine ⟨_, rfl, ?_, ?_, ?_, ?_, ?_⟩ <;> simp [fheAllow, fheAllowThis]

/-- Witness for C1 at a concrete input: sender 5, block time 100,
external ciphertext 42, valid proof `[7]`, fresh contract. -/
theorem submitPriceGuess_success_spec_witness :
    ∃ s2, submitPriceGuess env0 5 100 42 [7] initialState
        = some (s2, [Event.priceGuessSubmitted 5 100])
      ∧ s2.encryptedGuesses 5 = 43
      ∧ s2.hasSubmittedMap 5 = true
      ∧ s2.lastGuessTime 5 = 100
      ∧ s2.acl 43 5 = true
      ∧ s2.aclThis 43 = true :=
  submitPriceGuess_success_spec env0 5 100 42 [7] initialState 43 (by decide)

/-- C5: when `FHE.fromExternal` fails, `submitPriceGuess` reverts
(`none`): at the transaction level the contract state is completely
unchanged, so no mapping is modified, no permission is granted, and no
event is emitted. -/
theorem submitPriceGuess_failure_atomic (env : FHEEnv) (sender : Address)
    (ts : Nat) (eg : Nat) (proof : List Nat) (s : ContractState)
    (hfail : env.fromExternal eg proof = none) :
    submitPriceGuess env sender ts eg proof s = none
      ∧ step env (Op.submit sender ts eg proof) s = s := by
  constructor
  · simp [submitPriceGuess, hfail]
  · simp [step, submitPriceGuess, hfail]

/-- Witness for C5 at a concrete input: the proof `[0]` is invalid in
`env0`, so the submit from address 5 reverts and the fresh state is
untouched. -/
theorem submitPriceGuess_failure_atomic_witness :
    submitPriceGuess env0 5 100 42 [0] initialState = none
      ∧ step env0 (Op.submit 5 100 42 [0]) initialState = initialState :=
  submitPriceGuess_failure_atomic env0 5 100 42 [0] initialState (by decide)

/-- C3: submitting `v1` and then `v2` from the same address leaves the
submission flag true and the stored ciphertext decrypting to `v2`; when
the two values differ, it no longer decrypts to `v1`. -/
theorem resubmission_overwrites (env : FHEEnv) (addr : Address)
    (ts1 ts2 e1 e2 : Nat) (p1 p2 : List Nat) (v1 v2 : Nat)
    (s : ContractState) (h1 h2 : Euint32)
    (hv1 : env.fromExternal e1 p1 = some h1) (_hd1 : env.valueOf h1 = v1)
    (hv2 : env.fromExternal e2 p2 = some h2) (hd2 : env.valueOf h2 = v2) :
    hasSubmitted
        (step env (Op.submit addr ts2 e2 p2) (step env (Op.submit addr ts1 e1 p1) s)) addr = true
      ∧ env.valueOf (encryptedGuessOf
          (step env (Op.submit addr ts2 e2 p2) (step env (Op.submit addr ts1 e1 p1) s)) addr) = v2
      ∧ (v1 ≠ v2 → env.valueOf (encryptedGuessOf
          (step env (Op.submit addr ts2 e2 p2) (step env (Op.submit addr ts1 e1 p1) s)) addr) ≠ v1) := by
  refine ⟨?_, ?_, ?_⟩ <;>
    simp [step, submitPriceGuess, hv1, hv2, hasSubmitted, encryptedGuessOf,
      fheAllow, fheAllowThis, hd2]
  intro hne
  exact fun hcon => hne hcon.symm

/-- Witness for C3 at a concrete input: address 1 submits external
ciphertext 10 (plaintext 10) and then 20 (plaintext 20) in `env0`; the
final record decrypts to 20 and not to 10. -/
theorem resubmission_overwrites_witness :
    hasSubmitted
        (step env0 (Op.submit 1 60 20 [7]) (step env0 (Op.submit 1 50 10 [7]) initialState)) 1 = true
      ∧ env0.valueOf (encryptedGuessOf
          (step env0 (Op.submit 1 60 20 [7]) (step env0 (Op.submit 1 50 10 [7]) initialState)) 1) = 20
      ∧ ((10 : Nat) ≠ 20 → env0.valueOf (encryptedGuessOf
          (step env0 (Op.submit 1 60 20 [7]) (step env0 (Op.submit 1 50 10 [7]) initialState)) 1) ≠ 10) :=
  resubmission_overwrites env0 1 50 60 10 20 [7] [7] 10 20 initialState 11 21
    (by decide) (by decide) (by decide) (by decide)

/-- A contract state in which only address 1 has a submission flag set;
used to instantiate hypotheses of the theorems at concrete inputs. -/
def submittedOne : ContractState :=
  { initialState with hasSubmittedMap := fun a => decide (a = 1) }

/-- C2: `allowDecryption(grantee)` by a caller without a prior
submission reverts with the reason "No guess submitted" and leaves the
state unchanged at the transaction level; by a caller with a prior
submission it succeeds, adds `grantee` to the permission set of the
caller's ciphertext, and changes nothing else (the permission set only
grows). -/
theorem allowDecryption_spec (sender grantee : Address) (s : ContractState) :
    (s.hasSubmittedMap sender = false →
      allowDecryption sender grantee s = Except.error "No guess submitted"
        ∧ ∀ env, step env (Op.allow sender grantee) s = s)
    ∧ (s.hasSubmittedMap sender = true →
      ∃ s2, allowDecryption sender grantee s = Except.ok s2
        ∧ s2.acl (s.encryptedGuesses sender) grantee = true
        ∧ s2.encryptedGuesses = s.encryptedGuesses
        ∧ s2.hasSubmittedMap = s.hasSubmittedMap
        ∧ s2.lastGuessTime = s.lastGuessTime
        ∧ s2.aclThis = s.aclThis
        ∧ ∀ h a, s.acl h a = true → s2.acl h a = true) := by
  constructor
  · intro hf
    constructor
    · simp [allowDecryption, hf]
    · intro env
      simp [step, allowDecryption, hf]
  · intro ht
    refine ⟨fheAllow s (s.encryptedGuesses sender) grantee, ?_, ?_, rfl, rfl, rfl, rfl, ?_⟩
    · simp [allowDecryption, ht]
    · simp [fheAllow]
    · intro h a hold
      simp only [fheAllow]
      split
      · rfl
      · exact hold

/-- Witness for C2 at concrete inputs: on the fresh state, caller 1
(no submission) granting to 2 reverts and changes nothing; on
`submittedOne`, the same call succeeds and grants to 2. -/
theorem allowDecryption_spec_witness :
    (allowDecryption 1 2 initialState = Except.error "No guess submitted"
      ∧ ∀ env, step env (Op.allow 1 2) initialState = initialState)
    ∧ ∃ s2, allowDecryption 1 2 submittedOne = Except.ok s2
        ∧ s2.acl (submittedOne.encryptedGuesses 1) 2 = true
        ∧ s2.encryptedGuesses = submittedOne.encryptedGuesses
        ∧ s2.hasSubmittedMap = submittedOne.hasSubmittedMap
        ∧ s2.lastGuessTime = submittedOne.lastGuessTime
        ∧ s2.aclThis = submittedOne.aclThis
        ∧ ∀ h a, submittedOne.acl h a = true → s2.acl h a = true :=
  ⟨(allowDecryption_spec 1 2 initialState).1 rfl,
   (allowDecryption_spec 1 2 submittedOne).2 (by decide)⟩

/-- C4: on the fresh contract every submission flag is false; no
transaction (successful or reverting `submitPriceGuess` or
`allowDecryption`) ever turns a true flag back to false; and the only
transaction that turns the flag of an address from false to true is a
`submitPriceGuess` sent by that very address whose proof verification
succeeded. -/
theorem hasSubmitted_invariant :
    (∀ a, hasSubmitted initialState a = false)
    ∧ (∀ env op s a, hasSubmitted s a = true → hasSubmitted (step env op s) a = true)
    ∧ (∀ env op s a, hasSubmitted s a = false → hasSubmitted (step env op s) a = true →
        ∃ ts eg proof, op = Op.submit a ts eg proof
          ∧ (env.fromExternal eg proof).isSome = true) := by
  refine ⟨fun a => rfl, ?_, ?_⟩
  · intro env op s a hT
    cases op with
    | submit sender ts eg proof =>
      cases hX : env.fromExternal eg proof with
      | none => simpa [step, submitPriceGuess, hX] using hT
      | some h =>
        simp only [step, submitPriceGuess, hX, fheAllow, fheAllowThis, hasSubmitted] at *
        by_cases hc : a = sender <;> simp [hc, hT]
    | allow sender grantee =>
      simp only [step, allowDecryption]
      by_cases hs : s.hasSubmittedMap sender <;>
        simp [hs, fheAllow, hasSubmitted] at * <;> exact hT
  · intro env op s a hF hT
    cases op with
    | submit sender ts eg proof =>
      cases hX : env.fromExternal eg proof with
      | none =>
        rw [show step env (Op.submit sender ts eg proof) s = s by
          simp [step, submitPriceGuess, hX]] at hT
        exact absurd hT (by simp [hF])
      | some h =>
        simp only [step, submitPriceGuess, hX, fheAllow, fheAllowThis, hasSubmitted] at hT
        by_cases hc : a = sender
        · exact ⟨ts, eg, proof, by rw [hc], by simp [hX]⟩
        · rw [if_neg hc] at hT
          exact absurd hT (by simp [hasSubmitted] at hF; simp [hF])
    | allow sender grantee =>
      have hsame : hasSubmitted (step env (Op.allow sender grantee) s) a = hasSubmitted s a := by
        simp only [step, allowDecryption]
        by_cases hs : s.hasSubmittedMap sender <;> simp [hs, fheAllow, hasSubmitted]
      rw [hsame, hF] at hT
      exact absurd hT (by decide)

/-- Witness for C4 at a concrete input: the flag of address 1, true in
`submittedOne`, is still true after an `allowDecryption` transaction. -/
theorem hasSubmitted_invariant_witness :
    hasSubmitted (step env0 (Op.allow 1 2) submittedOne) 1 = true :=
  hasSubmitted_invariant.2.1 env0 (Op.allow 1 2) submittedOne 1 (by decide)

/-- Two contract states that agree on everything except the
`_lastGuessTime` mapping. -/
def AgreeExceptTime (s1 s2 : ContractState) : Prop :=
  s1.encryptedGuesses = s2.encryptedGuesses
    ∧ s1.hasSubmittedMap = s2.hasSubmittedMap
    ∧ s1.acl = s2.acl
    ∧ s1.aclThis = s2.aclThis

/-- C10: the stored timestamps never influence any other behaviour. For
two states that differ only in the `_lastGuessTime` mapping, the views
`hasSubmitted` and `encryptedGuessOf` agree, `submitPriceGuess` succeeds
or reverts identically with identical events and leaves states that
again differ only in the timestamps, and `allowDecryption` succeeds or
reverts with the identical reason and likewise preserves the relation:
no rate limit, cooldown or deadline is enforced from the timestamps. -/
theorem lastGuessTime_no_influence (env : FHEEnv) (s1 s2 : ContractState)
    (hA : AgreeExceptTime s1 s2) :
    (∀ u, hasSubmitted s1 u = hasSubmitted s2 u)
    ∧ (∀ u, encryptedGuessOf s1 u = encryptedGuessOf s2 u)
    ∧ (∀ sender ts eg proof,
        (submitPriceGuess env sender ts eg proof s1).isSome
          = (submitPriceGuess env sender ts eg proof s2).isSome
        ∧ Option.map Prod.snd (submitPriceGuess env sender ts eg proof s1)
          = Option.map Prod.snd (submitPriceGuess env sender ts eg proof s2)
        ∧ AgreeExceptTime (step env (Op.submit sender ts eg proof) s1)
            (step env (Op.submit sender ts eg proof) s2))
    ∧ (∀ sender grantee,
        (∀ e, allowDecryption sender grantee s1 = Except.error e
            ↔ allowDecryption sender grantee s2 = Except.error e)
        ∧ AgreeExceptTime (step env (Op.allow sender grantee) s1)
            (step env (Op.allow sender grantee) s2)) := by
  obtain ⟨hE, hH, hAc, hAt⟩ := hA
  refine ⟨?_, ?_, ?_, ?_⟩
  · intro u; simp [hasSubmitted, hH]
  · intro u; simp [encryptedGuessOf, hE]
  · intro sender ts eg proof
    cases hX : env.fromExternal eg proof with
    | none =>
      refine ⟨by simp [submitPriceGuess, hX], by simp [submitPriceGuess, hX], ?_⟩
      simp [step, submitPriceGuess, hX, AgreeExceptTime, hE, hH, hAc, hAt]
    | some h =>
      refine ⟨by simp [submitPriceGuess, hX], by simp [submitPriceGuess, hX], ?_⟩
      simp [step, submitPriceGuess, hX, fheAllow, fheAllowThis,
        AgreeExceptTime, hE, hH, hAc, hAt]
  · intro sender grantee
    by_cases hs : s1.hasSubmittedMap sender
    · have hs2 : s2.hasSubmittedMap sender := by rw [← hH]; exact hs
      refine ⟨by intro e; simp [allowDecryption, hs, hs2], ?_⟩
      simp [step, allowDecryption, hs, hs2, fheAllow,
        AgreeExceptTime, hE, hH, hAc, hAt]
    · have hs2 : ¬s2.hasSubmittedMap sender := by rw [← hH]; exact hs
      refine ⟨by intro e; simp [allowDecryption, hs, hs2], ?_⟩
      simp [step, allowDecryption, hs, hs2]
      exact ⟨hE, hH, hAc, hAt⟩

/-- A fresh contract state whose timestamp mapping has been replaced:
it differs from `initialState` only in `_lastGuessTime`. -/
def shiftedTime : ContractState :=
  { initialState with lastGuessTime := fun _ => 99 }

/-- Witness for C10 at a concrete input: `initialState` and
`shiftedTime` differ only in the timestamps, and the `hasSubmitted` view
agrees on address 0. -/
theorem lastGuessTime_no_influence_witness :
    hasSubmitted initialState 0 = hasSubmitted shiftedTime 0 :=
  (lastGuessTime_no_influence env0 initialState shiftedTime
    ⟨rfl, rfl, rfl, rfl⟩).1 0

end FHELaunchPrice

namespace Client

/-- C7: the client-side derived `hasSubmitted` is true exactly when a
ciphertext handle has been fetched (is truthy) and is not the
all-zero/default sentinel handle in either of its encodings. -/
theorem hasSubmittedClient_iff (h : Option String) :
    hasSubmittedClient h = true
      ↔ ∃ s, h = some s ∧ jsTruthy (some s) = true ∧ isSentinelHandle s = false := by
  cases h with
  | none => simp [hasSubmittedClient]
  | some s =>
    by_cases he : s = ""
    · subst he
      simp [hasSubmittedClient, jsTruthy]
    · simp [hasSubmittedClient, jsTruthy, isSentinelHandle, he]

/-- Witness for C7 at a concrete input: a nonzero handle is reported as
submitted. -/
theorem hasSubmittedClient_iff_witness :
    hasSubmittedClient (some "0xabc") = true :=
  (hasSubmittedClient_iff (some "0xabc")).mpr ⟨"0xabc", rfl, by decide, by decide⟩

/-- C9: the client-side derived `valueDecrypted` is true exactly when
the results cache holds an entry for the current handle whose numeric
value is nonzero; in particular a successfully decrypted genuine zero
yields `valueDecrypted = false`. -/
theorem valueDecrypted_spec :
    (∀ h res, valueDecrypted h res = true
      ↔ ∃ s f v, h = some s ∧ res = some f ∧ s ≠ "" ∧ f s = some v ∧ v ≠ 0)
    ∧ (∀ (s : String) (f : String → Option Nat), s ≠ "" → f s = some 0 →
        valueDecrypted (some s) (some f) = false) := by
  constructor
  · intro h res
    cases h with
    | none => simp [valueDecrypted]
    | some s =>
      cases res with
      | none => simp [valueDecrypted]
      | some f =>
        by_cases he : s = ""
        · subst he
          simp [valueDecrypted]
        · cases hf : f s with
          | none => simp [valueDecrypted, he, hf]
          | some v => simp [valueDecrypted, he, hf]
  · intro s f hne hz
    simp [valueDecrypted, hne, hz]

/-- Witness for C9 at a concrete input: a cache entry decrypting the
current handle to zero leaves `valueDecrypted` false. -/
theorem valueDecrypted_spec_witness :
    valueDecrypted (some "0xabc")
      (some fun s2 => if s2 = "0xabc" then some 0 else none) = false :=
  valueDecrypted_spec.2 "0xabc" (fun s2 => if s2 = "0xabc" then some 0 else none)
    (by decide) rfl

/-- C8: a `submitValue` call made while busy, without a connected
account, or without deployed contract info returns the UI state
unchanged and performs no on-chain interaction: the call is dropped, not
queued. -/
theorem submitValue_guard_noop (st : ClientState) (accounts : Option (List String))
    (hasContract : Bool) (label : String) (amount : Nat) (outcome : SubmitOutcome)
    (hguard : st.busy = true ∨ firstAccountPresent accounts = false ∨ hasContract = false) :
    submitValue st accounts hasContract label amount outcome = (st, []) := by
  rcases hguard with h | h | h <;> simp [submitValue, h]

/-- Witness for C8 at a concrete input: while busy, a fully-formed call
is dropped and the state (busy flag and status text) is untouched. -/
theorem submitValue_guard_noop_witness :
    submitValue ⟨true, "working"⟩ (some ["0xa"]) true "ETH" 5 SubmitOutcome.success
      = (⟨true, "working"⟩, []) :=
  submitValue_guard_noop ⟨true, "working"⟩ (some ["0xa"]) true "ETH" 5
    SubmitOutcome.success (Or.inl rfl)

/-- C6: every failure inside a `submitValue` call that passed the guard
(encryption failure, missing signer, transaction rejection, confirmation
failure) ends with the busy flag cleared and the status text set to a
"Submission error: ..." message, and at most the single original
transaction broadcast happened — no error path leaves the busy flag set
and none retries. -/
theorem submitValue_failure_clears_busy (st : ClientState)
    (accounts : Option (List String)) (hasContract : Bool) (label : String)
    (amount : Nat) (outcome : SubmitOutcome)
    (hbusy : st.busy = false)
    (hacc : firstAccountPresent accounts = true)
    (hc : hasContract = true)
    (hfail : outcome ≠ SubmitOutcome.success) :
    (submitValue st accounts hasContract label amount outcome).1.busy = false
      ∧ (∃ m, (submitValue st accounts hasContract label amount outcome).1.status
          = "Submission error: " ++ m)
      ∧ ((submitValue st accounts hasContract label amount outcome).2 = []
        ∨ (submitValue st accounts hasContract label amount outcome).2
            = [ChainAction.sendTx amount]) := by
  subst hc
  cases outcome with
  | success => exact absurd rfl hfail
  | encryptFail =>
    exact ⟨by simp [submitValue, hbusy, hacc],
      ⟨"Encryption failed", by simp [submitValue, hbusy, hacc]⟩,
      Or.inl (by simp [submitValue, hbusy, hacc])⟩
  | signerMissing =>
    exact ⟨by simp [submitValue, hbusy, hacc],
      ⟨"Contract signer missing", by simp [submitValue, hbusy, hacc]⟩,
      Or.inl (by simp [submitValue, hbusy, hacc])⟩
  | txRejected m =>
    exact ⟨by simp [submitValue, hbusy, hacc],
      ⟨m, by simp [submitValue, hbusy, hacc]⟩,
      Or.inl (by simp [submitValue, hbusy, hacc])⟩
  | confirmFail m =>
    exact ⟨by simp [submitValue, hbusy, hacc],
      ⟨m, by simp [submitValue, hbusy, hacc]⟩,
      Or.inr (by simp [submitValue, hbusy, hacc])⟩

/-- Witness for C6 at a concrete input: a wallet rejection during a
well-formed call ends idle with a "Submission error" status and no
broadcast. -/
theorem submitValue_failure_clears_busy_witness :
    (submitValue ⟨false, ""⟩ (some ["0xa"]) true "ETH" 5
        (SubmitOutcome.txRejected "user rejected")).1.busy = false
      ∧ (∃ m, (submitValue ⟨false, ""⟩ (some ["0xa"]) true "ETH" 5
          (SubmitOutcome.txRejected "user rejected")).1.status
            = "Submission error: " ++ m)
      ∧ ((submitValue ⟨false, ""⟩ (some ["0xa"]) true "ETH" 5
            (SubmitOutcome.txRejected "user rejected")).2 = []
        ∨ (submitValue ⟨false, ""⟩ (some ["0xa"]) true "ETH" 5
            (SubmitOutcome.txRejected "user rejected")).2
              = [ChainAction.sendTx 5]) :=
  submitValue_failure_clears_busy ⟨false, ""⟩ (some ["0xa"]) true "ETH" 5
    (SubmitOutcome.txRejected "user rejected") rfl rfl rfl (by decide)

end Client
